import Mathlib

/-!
Verification of the core algorithms of the dailystock dashboard (src/app.py)
against its natural-language specification.

Shallow embedding conventions:
* KST instants are modelled as minutes since a fixed epoch whose day 0 is a
  Monday; a day number is `t / 1440`, the minute of day is `t % 1440`, and the
  weekday test `date.weekday() >= 5` becomes `5 ≤ d % 7`.
* The holiday set (a Python set of date strings) is modelled as a membership
  test `ℕ → Bool` on day numbers.
* Python floats are modelled as exact rationals `ℚ`; `clean_value` (which maps
  `None`/NaN/inf to `None` and finite numbers to floats) is modelled by using
  `Option ℚ` for possibly-absent values.
* Network and subprocess effects are modelled as explicit oracles passed as
  function arguments; wall-clock reads (`get_current_yyyymm_kst`,
  `datetime.now`) become explicit parameters.
-/

/-- Python's `max(iterable, key=k)` / `min(iterable, key=k)` loop skeleton:
fold over the tail, replacing the current best `m` by `y` exactly when
`ltb (k m) (k y)` holds, so the first optimum (in iteration order) is kept. -/
def pyfold_best {α β : Type} (ltb : β → β → Prop) [DecidableRel ltb]
    (k : α → β) (x : α) (xs : List α) : α :=
  xs.foldl (fun m y => if ltb (k m) (k y) then y else m) x

/-- Python's `max(x :: xs, key=k)`: replace the current best only when the new
element is strictly greater, so the first maximal element wins. -/
def pymaxfold {α β : Type} [LinearOrder β] (k : α → β) (x : α) (xs : List α) : α :=
  pyfold_best (fun a b => a < b) k x xs

/-- Python's `min(x :: xs, key=k)`: replace the current best only when the new
element is strictly smaller, so the first minimal element wins. -/
def pyminfold {α β : Type} [LinearOrder β] (k : α → β) (x : α) (xs : List α) : α :=
  pyfold_best (fun a b => b < a) k x xs

/-- Source `KRX_OPEN_TIME = time(9, 0, 0)` as a minute of day (app.py line 102). -/
def KRX_OPEN_MINUTE : ℕ := 9 * 60

/-- Source `KRX_CLOSE_TIME = time(15, 30, 0)` as a minute of day (app.py line 103). -/
def KRX_CLOSE_MINUTE : ℕ := 15 * 60 + 30

/-- Source `is_krx_trading_day` (app.py lines 109-115): weekdays (`weekday() < 5`)
that are not in the holiday set.  Day 0 of the embedding is a Monday, and the
holiday set is the membership test `H` on day numbers. -/
def is_krx_trading_day (date_kst : ℕ) (kr_holiday_set : ℕ → Bool) : Bool :=
  if 5 ≤ date_kst % 7 then false else ! kr_holiday_set date_kst

/-- The `for _ in range(370)` loop of `get_next_krx_open_datetime`
(app.py lines 123-128): starting from `candidate_date`, return the first
09:00 instant of a trading day that lies strictly after `now`; when the fuel
is exhausted, return 09:00 of the day reached after the last increment. -/
def next_open_loop (now : ℕ) (kr_holiday_set : ℕ → Bool) : ℕ → ℕ → ℕ
  | 0, candidate_date => candidate_date * 1440 + KRX_OPEN_MINUTE
  | fuel + 1, candidate_date =>
    let open_dt := candidate_date * 1440 + KRX_OPEN_MINUTE
    if is_krx_trading_day candidate_date kr_holiday_set && decide (now < open_dt) then
      open_dt
    else
      next_open_loop now kr_holiday_set fuel (candidate_date + 1)

/-- Source `get_next_krx_open_datetime` (app.py lines 117-128): the candidate starts
at `now_kst.date()` and the loop runs 370 times. -/
def get_next_krx_open_datetime (now_kst : ℕ) (kr_holiday_set : ℕ → Bool) : ℕ :=
  next_open_loop now_kst kr_holiday_set 370 (now_kst / 1440)

/-- The fields of the dict returned by `get_market_countdown_context`
(app.py lines 148-154) that the claims are about; `target_epoch_ms` and
`holiday_dates` are presentation data derived from the same values. -/
structure CountdownContext where
  market_state : String
  target_dt_kst : ℕ
  label : String
deriving DecidableEq

/-- Source `get_market_countdown_context` (app.py lines 130-154): the session is
"open" on a trading day within `open_dt <= now < close_dt`; otherwise the
state is "closed" and the target is the next KRX open instant. -/
def get_market_countdown_context (now_kst : ℕ) (kr_holiday_set : ℕ → Bool) :
    CountdownContext :=
  let today := now_kst / 1440
  let open_dt := today * 1440 + KRX_OPEN_MINUTE
  let close_dt := today * 1440 + KRX_CLOSE_MINUTE
  if is_krx_trading_day today kr_holiday_set
      && (decide (open_dt ≤ now_kst) && decide (now_kst < close_dt)) then
    { market_state := "open", target_dt_kst := close_dt, label := "장 종료까지" }
  else
    { market_state := "closed",
      target_dt_kst := get_next_krx_open_datetime now_kst kr_holiday_set,
      label := "다음 장 시작까지" }

/-- The `while curr <= end` loop of `generate_full_timeline`
(app.py lines 780-785), over minute-of-day labels instead of `"HH:MM"`
strings (the string rendering is injective on minutes of a day). -/
def timeline_loop (curr endt : ℕ) : List ℕ :=
  if h : curr ≤ endt then curr :: timeline_loop (curr + 1) endt else []
termination_by endt + 1 - curr
decreasing_by omega

/-- Source `generate_full_timeline` (app.py lines 776-785): every minute label from
09:00 to 15:30 inclusive. -/
def generate_full_timeline : List ℕ :=
  timeline_loop KRX_OPEN_MINUTE KRX_CLOSE_MINUTE

/-- One row of the Naver index dataframe as consumed by `process_df`
(app.py lines 841-844): its compact timestamp `thistime` (`YYYYMMDDHHMMSS`
as a number) and its `nowVal` reading, already passed through `clean_value`
(absent for `None`/NaN/inf). -/
structure Sample where
  thistime : ℕ
  nowVal : Option ℚ
deriving DecidableEq

/-- Sort key relation for `df.sort_values('thistime')`. -/
def sample_le (a b : Sample) : Prop := a.thistime ≤ b.thistime

instance : DecidableRel sample_le :=
  fun a b => (inferInstance : Decidable (a.thistime ≤ b.thistime))

/-- Source `f"{x[8:10]}:{x[10:12]}"` (app.py line 843): the hour and minute digits of
the compact timestamp, as a minute of day. -/
def sample_time_hm (thistime : ℕ) : ℕ :=
  (thistime / 10000) % 100 * 60 + (thistime / 100) % 100

/-- Source `process_df` (app.py lines 841-844): sort by `thistime` (pandas sorts are
stable), then keep the `(time_hm, nowVal)` columns. -/
def process_df (samples : List Sample) : List (ℕ × Option ℚ) :=
  (List.insertionSort sample_le samples).map
    (fun s => (sample_time_hm s.thistime, s.nowVal))

/-- Source `pd.merge(timeline_df, df_p, on='time_hm', how='left')`
(app.py lines 849-850): a database-style left join.  Each grid label emits
one output row per matching right row (in right-frame order), or a single
absent row when there is no match; the value slot is `Option (Option ℚ)`
because the matched sample's own reading may be absent (`clean_value` then
yields `none` via `Option.join`). -/
def merge_left (grid : List ℕ) (s : List (ℕ × Option ℚ)) :
    List (ℕ × Option (Option ℚ)) :=
  grid.flatMap (fun g =>
    match s.filter (fun p => decide (p.1 = g)) with
    | [] => [(g, none)]
    | q :: qs => (q :: qs).map (fun p => (p.1, some p.2)))

/-- Source `calculate_y_axis_bounds` (app.py lines 787-811).  `values` is the merged
per-minute column after `clean_value`; the first non-absent entry is the
reference, `max`/`min` run over the non-absent entries, and the margin is
either the flat-series spread `reference * 0.005` or the inflated
`margin * 1.15`.  The source returns the pair `(None, None)` when no valid
value exists; this is modelled as `none`. -/
def calculate_y_axis_bounds (values : List (Option ℚ)) : Option (ℚ × ℚ) :=
  match values.findSome? id with
  | none => none
  | some reference_val =>
    match values.filterMap id with
    | [] => none
    | x :: xs =>
      let max_val := pymaxfold id x xs
      let min_val := pyminfold id x xs
      let diff_up := max_val - reference_val
      let diff_down := reference_val - min_val
      let margin := max diff_up diff_down
      let margin2 := if margin = 0 then reference_val * 0.005 else margin * 1.15
      some (reference_val - margin2, reference_val + margin2)

/-- Source `get_extrema_info` (app.py lines 813-822): zip the timeline with the
values, keep pairs whose value is present, and return Python's
`max(..., key=value)` and `min(..., key=value)`; the source returns the pair
`(None, None)` when nothing is valid, modelled as `none`. -/
def get_extrema_info (timeline : List ℕ) (values : List (Option ℚ)) :
    Option ((ℕ × ℚ) × (ℕ × ℚ)) :=
  match (timeline.zip values).filterMap
      (fun p => p.2.map (fun v => (p.1, v))) with
  | [] => none
  | x :: xs =>
    some (pymaxfold (fun p => p.2) x xs, pyminfold (fun p => p.2) x xs)

/-- JSON values as received from the KRX endpoint (`response.json()` /
`json.loads`), for `extract_rows_from_krx_payload`. -/
inductive J where
  | null : J
  | bool (b : Bool) : J
  | num (q : ℚ) : J
  | str (s : String) : J
  | arr (items : List J) : J
  | obj (fields : List (String × J)) : J

/-- Python's `isinstance(x, dict)`. -/
def J.isObj : J → Bool
  | J.obj _ => true
  | _ => false

/-- Source `preferred_keys` of `extract_rows_from_krx_payload` (app.py line 377). -/
def preferred_keys : List String :=
  ["OutBlock_1", "output", "result", "data", "list"]

/-- Source `[row for row in val if isinstance(row, dict)]` guarded by
`isinstance(val, list)` (app.py lines 380-381): the dict rows contributed by
one candidate value (`none` models a missing key, Python's `dict.get`
returning `None`). -/
def rows_from_val (val : Option J) : List J :=
  match val with
  | some (J.arr items) => items.filter J.isObj
  | _ => []

/-- The first accumulation loop of `extract_rows_from_krx_payload`
(app.py lines 376-381): extend `rows` with the dict elements of every list
found under the preferred keys, in preferred-key order. -/
def preferred_rows (fields : List (String × J)) : List J :=
  preferred_keys.foldl (fun rows key => rows ++ rows_from_val (List.lookup key fields)) []

/-- Source `extract_rows_from_krx_payload` (app.py lines 369-389).  A list root keeps
its dict elements; a dict root returns the preferred-key rows when non-empty
and otherwise falls back to scanning every value of the dict in iteration
order; any other root yields `[]`.  A `J.obj` models a Python dict, so its
keys are the dict's keys in iteration order. -/
def extract_rows_from_krx_payload : J → List J
  | J.arr items => items.filter J.isObj
  | J.obj fields =>
    let rows := preferred_rows fields
    if rows.isEmpty then
      (fields.map Prod.snd).foldl (fun rows val => rows ++ rows_from_val (some val)) []
    else rows
  | _ => []

/-- One KRX futures row, restricted to the fields read by the contract
resolver (`PROD_NM`, `MKT_NM`, `ISU_NM`, `BAS_DD`); all are strings in the
payload (`row.get(...)` with `str(... or "")` coercion in the source). -/
structure Row where
  PROD_NM : String
  MKT_NM : String
  ISU_NM : String
  BAS_DD : String
deriving DecidableEq

/-- Source `normalize_kr_text` (app.py lines 508-509): `re.sub(r"\s+", "", ...)`
removes every whitespace character (the trailing `.strip()` is then a no-op). -/
def normalize_kr_text (value : String) : String :=
  String.mk (value.data.filter (fun c => ! c.isWhitespace))

/-- Python's `str.strip()`: drop leading and trailing whitespace.  (Defined
here because Lean's built-in `String.trim` does not reduce in the kernel.) -/
def py_strip (s : String) : String :=
  String.mk (((s.data.dropWhile Char.isWhitespace).reverse.dropWhile
    Char.isWhitespace).reverse)

/-- Python's `needle in hay` substring test. -/
def has_substr (needle hay : List Char) : Bool :=
  hay.tails.any (fun t => needle.isPrefixOf t)

/-- Consume an exact literal prefix, returning the rest of the input. -/
def strip_lit : List Char → List Char → Option (List Char)
  | [], s => some s
  | _ :: _, [] => none
  | c :: cs, x :: xs => if x = c then strip_lit cs xs else none

/-- Numeric value of a digit character. -/
def digit_val (c : Char) : ℕ := c.toNat - 48

/-- The anchored regex
`^코스피200\s*F\s*(20\d{2})(0[1-9]|1[0-2])\s*\(야간\)$` of
`build_kospi_night_candidates` (app.py line 590), as a deterministic parser
(every `\s*` is followed by a non-space literal, so greedy matching is
unambiguous): returns the captured `YYYYMM` on a full match. -/
def parse_isu_yyyymm (isu_nm : String) : Option ℕ :=
  match strip_lit "코스피200".data isu_nm.data with
  | none => none
  | some s1 =>
    match strip_lit ['F'] (s1.dropWhile Char.isWhitespace) with
    | none => none
    | some s2 =>
      match s2.dropWhile Char.isWhitespace with
      | '2' :: '0' :: y1 :: y2 :: m1 :: m2 :: rest =>
        if y1.isDigit && y2.isDigit
            && ((m1 = '0' && decide ('1' ≤ m2) && decide (m2 ≤ '9'))
                || (m1 = '1' && decide ('0' ≤ m2) && decide (m2 ≤ '2'))) then
          match strip_lit "(야간)".data (rest.dropWhile Char.isWhitespace) with
          | some [] =>
            some ((2000 + 10 * digit_val y1 + digit_val y2) * 100
              + 10 * digit_val m1 + digit_val m2)
          | _ => none
        else none
      | _ => none

/-- Source `build_kospi_night_candidates` (app.py lines 575-595): keep rows whose
normalized product name contains `코스피200선물`, whose normalized market
name contains `야간`, and whose stripped `ISU_NM` matches the strict
`코스피200 F YYYYMM (야간)` pattern, paired with the parsed month. -/
def build_kospi_night_candidates (rows : List Row) : List (ℕ × Row) :=
  rows.filterMap (fun row =>
    if has_substr "코스피200선물".data (normalize_kr_text row.PROD_NM).data
        && has_substr "야간".data (normalize_kr_text row.MKT_NM).data then
      match parse_isu_yyyymm (py_strip row.ISU_NM) with
      | some yyyymm => some (yyyymm, row)
      | none => none
    else none)

/-- Source `yyyymm_to_serial` (app.py lines 535-538). -/
def yyyymm_to_serial (yyyymm : ℕ) : ℕ :=
  yyyymm / 100 * 12 + yyyymm % 100

/-- Source `normalize_bas_dd` (app.py lines 545-549): keep the digit characters; if
at least 8 remain, the number formed by the first 8, else 0. -/
def normalize_bas_dd (value : String) : ℕ :=
  let digits := value.data.filter Char.isDigit
  if 8 ≤ digits.length then
    (digits.take 8).foldl (fun n c => n * 10 + digit_val c) 0
  else 0

/-- The Python tuple
`(abs(serial - current_serial), 0 if serial >= current_serial else 1, serial)`
used as the `min` key over candidate months (app.py lines 610-614), under the
lexicographic tuple order. -/
def month_key (current_serial : ℕ) (month : ℕ) : Lex (ℕ × Lex (ℕ × ℕ)) :=
  toLex (((yyyymm_to_serial month : ℤ) - (current_serial : ℤ)).natAbs,
    toLex ((if current_serial ≤ yyyymm_to_serial month then 0 else 1),
      yyyymm_to_serial month))

/-- The Python tuple `(normalize_bas_dd(row.BAS_DD), str(row.ISU_NM))` used as
the sort key over same-month rows (app.py lines 618-622). -/
def row_key (row : Row) : Lex (ℕ × String) :=
  toLex (normalize_bas_dd row.BAS_DD, row.ISU_NM)

/-- Source `same_month_rows.sort(key=..., reverse=True)`: descending, stable. -/
def row_desc (a b : Row) : Prop := row_key b ≤ row_key a

instance : DecidableRel row_desc :=
  fun a b => (inferInstance : Decidable (row_key b ≤ row_key a))

instance : IsTotal Row row_desc :=
  ⟨fun a b => le_total (row_key b) (row_key a)⟩

instance : IsTrans Row row_desc :=
  ⟨fun _ _ _ hab hbc => le_trans hbc hab⟩

/-- Source `sorted({month for month, _ in candidates})` (app.py line 607): the
distinct candidate months in ascending order. -/
def candidate_months (candidates : List (ℕ × Row)) : List ℕ :=
  List.insertionSort (fun a b => a ≤ b) ((candidates.map Prod.fst).dedup)

/-- Source `min(unique_months, key=...)` (app.py lines 608-615): Python's `min` under
the `month_key` tuple; `none` models `min`'s error on an empty iterable (which
cannot occur, since the caller returns early when there are no candidates). -/
def target_month_of (current_serial : ℕ) (candidates : List (ℕ × Row)) : Option ℕ :=
  match candidate_months candidates with
  | [] => none
  | m :: ms => some (pyminfold (month_key current_serial) m ms)

/-- Source `same_month_rows` after the in-place descending sort (app.py lines
617-624): the rows of the winning month, sorted descending by `row_key`
(Python's stable `list.sort` with `reverse=True`, modelled by a stable
insertion sort under the reversed relation). -/
def same_month_rows_of (candidates : List (ℕ × Row)) (target_month : ℕ) : List Row :=
  List.insertionSort row_desc
    ((candidates.filter (fun p => decide (p.1 = target_month))).map Prod.snd)

/-- Source `select_latest_kospi_night_contract` (app.py lines 597-625), with
`get_current_yyyymm_kst()` (a wall-clock read) passed in as `current_yyyymm`.
`same_month_rows[0] if same_month_rows else None` is `List.head?`. -/
def select_latest_kospi_night_contract (current_yyyymm : ℕ) (rows : List Row) :
    Option Row :=
  match build_kospi_night_candidates rows with
  | [] => none
  | c :: cs =>
    match target_month_of (yyyymm_to_serial current_yyyymm) (c :: cs) with
    | none => none
    | some target_month => (same_month_rows_of (c :: cs) target_month).head?

/-- Outcome of one failed primary attempt of `fetch_krx_futures_by_date`:
either an HTTP status error (`requests.HTTPError` with a response, carrying
the status code and body text) or any other transport/parse exception
carrying its message. -/
inductive PrimErr where
  | http (status : ℕ) (body : String) : PrimErr
  | transport (msg : String) : PrimErr
deriving DecidableEq

/-- The `header_profiles` list (app.py lines 400-438) as `(name, warmup)`
pairs; the concrete header dictionaries only shape the network request, which
is abstracted into the attempt oracle. -/
def header_profiles : List (String × Bool) :=
  [("minimal", false), ("navigate", false), ("session", true)]

/-- The profile × timeout attempt order of the nested loops
`for profile in header_profiles: for timeout_sec in (10, 20)`
(app.py lines 442-443). -/
def attempt_pairs (profiles : List (String × Bool)) : List (String × ℕ) :=
  profiles.flatMap (fun p => [(p.1, 10), (p.1, 20)])

/-- The primary try/except loop of `fetch_krx_futures_by_date`
(app.py lines 440-471): `attempt profile timeout` is the outcome of one
attempt (warm-up, request, manual redirect hop, `raise_for_status`, and JSON
decoding included); the first success returns the extracted rows, otherwise
the last `(profile, error)` pair is reported. -/
def primary_attempts_loop (attempt : String → ℕ → Except PrimErr J) :
    List (String × ℕ) → Option (String × PrimErr) →
    Except (Option (String × PrimErr)) (List J)
  | [], last => Except.error last
  | (p, t) :: rest, last =>
    match attempt p t with
    | Except.ok payload => Except.ok (extract_rows_from_krx_payload payload)
    | Except.error e => primary_attempts_loop attempt rest (some (p, e))

/-- The diagnostic message built from the last primary failure
(app.py lines 473-480): HTTP errors are rendered with their status code and a
truncated body preview plus the profile name; other errors keep their own
message. -/
def mk_request_err (last_profile : String) (e : PrimErr) : String :=
  match e with
  | PrimErr.http status body =>
    "HTTP " ++ toString status ++ ": " ++ (body.take 200).replace "\n" " "
      ++ " (profile=" ++ last_profile
      ++ ", 브라우저는 성공/앱은 실패 시 서버측 IP 차단 또는 봇 차단 가능)"
  | PrimErr.transport msg => msg

/-- Source `fetch_krx_futures_by_date` (app.py lines 391-506).  The `curl` oracle is
the outcome of the single fallback `subprocess.check_output` plus
`json.loads` (its error message covers both a non-zero exit and a JSON decode
failure).  The second component counts fallback invocations.  When the
fallback payload yields no rows, the source re-raises the primary error
unchanged; when the fallback itself fails, the raised message concatenates
the primary error and the truncated fallback error. -/
def fetch_krx_futures_by_date (attempt : String → ℕ → Except PrimErr J)
    (curl : Except String J) : Except String (List J) × ℕ :=
  match primary_attempts_loop attempt (attempt_pairs header_profiles) none with
  | Except.ok rows => (Except.ok rows, 0)
  | Except.error last =>
    let request_err :=
      match last with
      | some (profile, e) => mk_request_err profile e
      | none => "None"
    match curl with
    | Except.ok payload =>
      match extract_rows_from_krx_payload payload with
      | [] => (Except.error request_err, 1)
      | r :: rs => (Except.ok (r :: rs), 1)
    | Except.error curl_err =>
      (Except.error (request_err ++ " | curl_fallback_error=" ++ curl_err.take 200), 1)

/-- The candidate loop of `_get_latest_kospi_night_futures_cached`
(app.py lines 627-688).  `fetch` is the per-basis-date outcome of
`fetch_krx_futures_by_date` (error = the exception message); a fetch error
records `last_error` and continues, a successful fetch without a selection
continues with the previous `last_error`, and the first successful selection
returns immediately.  After exhaustion the user-visible message carries the
last error when one exists.  (The `debug_logs` third component of the source
is presentation-only and omitted.) -/
def cached_loop (current_yyyymm : ℕ) (fetch : String → Except String (List Row)) :
    List String → Option String → Option Row × Option String
  | [], last_error =>
    match last_error with
    | some e => (none, some ("KRX API 호출 실패: " ++ e))
    | none => (none, some "최근 10일(내일 기준) 내 야간 코스피200 선물 데이터가 없습니다.")
  | bas_dd :: rest, last_error =>
    match fetch bas_dd with
    | Except.error e => cached_loop current_yyyymm fetch rest (some e)
    | Except.ok rows =>
      match select_latest_kospi_night_contract current_yyyymm rows with
      | some selected => (some selected, none)
      | none => cached_loop current_yyyymm fetch rest last_error

/-- Source `_get_latest_kospi_night_futures_cached` (app.py lines 627-688), with the
wall-clock month and the fetch outcomes passed explicitly. -/
def get_latest_kospi_night_futures_cached (current_yyyymm : ℕ)
    (fetch : String → Except String (List Row)) (bas_dd_candidates : List String) :
    Option Row × Option String :=
  cached_loop current_yyyymm fetch bas_dd_candidates none

/-- A basis-date candidate that does not produce a selection: its fetch fails,
or its fetch succeeds but the contract resolver selects nothing. -/
def no_resolve (current_yyyymm : ℕ) (fetch : String → Except String (List Row))
    (bas_dd : String) : Prop :=
  (∃ e, fetch bas_dd = Except.error e) ∨
    (∃ rows, fetch bas_dd = Except.ok rows ∧
      select_latest_kospi_night_contract current_yyyymm rows = none)

lemma pyfold_best_decomp {α β : Type} (ltb : β → β → Prop) [DecidableRel ltb]
    (H1 : ∀ {a b c : β}, ltb a b → ltb b c → ltb a c)
    (H2 : ∀ {a b c : β}, ¬ ltb a b → ltb a c → ltb b c)
    (k : α → β) :
    ∀ (xs : List α) (x : α), ∃ l₁ l₂,
      x :: xs = l₁ ++ pyfold_best ltb k x xs :: l₂
      ∧ (∀ a ∈ l₁, ltb (k a) (k (pyfold_best ltb k x xs)))
      ∧ (∀ a ∈ l₂, ¬ ltb (k (pyfold_best ltb k x xs)) (k a)) := by
  intro xs
  induction xs with
  | nil =>
    intro x
    exact ⟨[], [], rfl, by simp, by simp⟩
  | cons y ys ih =>
    intro x
    by_cases h : ltb (k x) (k y)
    · obtain ⟨l₁, l₂, heq, h₁, h₂⟩ := ih y
      have hr : pyfold_best ltb k x (y :: ys) = pyfold_best ltb k y ys := by
        simp [pyfold_best, h]
      rw [hr]
      have hxr : ltb (k x) (k (pyfold_best ltb k y ys)) := by
        cases l₁ with
        | nil =>
          rw [List.nil_append] at heq
          obtain ⟨hy, -⟩ := List.cons.inj heq
          rw [← hy]; exact h
        | cons a as =>
          obtain ⟨ha, -⟩ := List.cons.inj heq
          exact H1 (ha ▸ h) (h₁ a (List.mem_cons_self a as))
      refine ⟨x :: l₁, l₂, ?_, ?_, h₂⟩
      · rw [List.cons_append, ← heq]
      · intro a ha
        rcases List.mem_cons.mp ha with rfl | ha
        · exact hxr
        · exact h₁ a ha
    · obtain ⟨l₁, l₂, heq, h₁, h₂⟩ := ih x
      have hr : pyfold_best ltb k x (y :: ys) = pyfold_best ltb k x ys := by
        simp [pyfold_best, h]
      rw [hr]
      cases l₁ with
      | nil =>
        rw [List.nil_append] at heq
        obtain ⟨hx, hys⟩ := List.cons.inj heq
        refine ⟨[], y :: ys, ?_, by simp, ?_⟩
        · rw [List.nil_append, ← hx]
        · intro a ha
          rcases List.mem_cons.mp ha with rfl | ha
          · rw [← hx]; exact h
          · exact h₂ a (hys ▸ ha)
      | cons a as =>
        obtain ⟨hax, hys⟩ := List.cons.inj heq
        have hxR : ltb (k x) (k (pyfold_best ltb k x ys)) :=
          hax ▸ h₁ a (List.mem_cons_self a as)
        refine ⟨x :: y :: as, l₂, ?_, ?_, h₂⟩
        · exact congrArg (fun l => x :: y :: l) hys
        · intro b hb
          rcases List.mem_cons.mp hb with rfl | hb
          · exact hxR
          rcases List.mem_cons.mp hb with rfl | hb
          · exact H2 h hxR
          · exact h₁ b (List.mem_cons_of_mem a hb)

lemma pymaxfold_decomp {α β : Type} [LinearOrder β] (k : α → β) (xs : List α) (x : α) :
    ∃ l₁ l₂, x :: xs = l₁ ++ pymaxfold k x xs :: l₂
      ∧ (∀ a ∈ l₁, k a < k (pymaxfold k x xs))
      ∧ (∀ a ∈ l₂, k a ≤ k (pymaxfold k x xs)) := by
  obtain ⟨l₁, l₂, heq, h₁, h₂⟩ :=
    pyfold_best_decomp (fun a b => a < b)
      (fun hab hbc => lt_trans hab hbc)
      (fun hab hbc => lt_of_le_of_lt (le_of_not_lt hab) hbc) k xs x
  exact ⟨l₁, l₂, heq, h₁, fun a ha => le_of_not_lt (h₂ a ha)⟩

lemma pyminfold_decomp {α β : Type} [LinearOrder β] (k : α → β) (xs : List α) (x : α) :
    ∃ l₁ l₂, x :: xs = l₁ ++ pyminfold k x xs :: l₂
      ∧ (∀ a ∈ l₁, k (pyminfold k x xs) < k a)
      ∧ (∀ a ∈ l₂, k (pyminfold k x xs) ≤ k a) := by
  obtain ⟨l₁, l₂, heq, h₁, h₂⟩ :=
    pyfold_best_decomp (fun a b => b < a)
      (fun hab hbc => lt_trans hbc hab)
      (fun hab hbc => lt_of_lt_of_le hbc (le_of_not_lt hab)) k xs x
  exact ⟨l₁, l₂, heq, h₁, fun a ha => le_of_not_lt (h₂ a ha)⟩

lemma pymaxfold_mem {α β : Type} [LinearOrder β] (k : α → β) (xs : List α) (x : α) :
    pymaxfold k x xs ∈ x :: xs := by
  obtain ⟨l₁, l₂, heq, -, -⟩ := pymaxfold_decomp k xs x
  rw [heq]
  exact List.mem_append_right l₁ (List.mem_cons_self _ _)

lemma pymaxfold_le {α β : Type} [LinearOrder β] (k : α → β) (xs : List α) (x : α) :
    ∀ a ∈ x :: xs, k a ≤ k (pymaxfold k x xs) := by
  obtain ⟨l₁, l₂, heq, h₁, h₂⟩ := pymaxfold_decomp k xs x
  intro a ha
  rw [heq] at ha
  rcases List.mem_append.mp ha with ha | ha
  · exact le_of_lt (h₁ a ha)
  · rcases List.mem_cons.mp ha with rfl | ha
    · exact le_refl _
    · exact h₂ a ha

lemma pyminfold_mem {α β : Type} [LinearOrder β] (k : α → β) (xs : List α) (x : α) :
    pyminfold k x xs ∈ x :: xs := by
  obtain ⟨l₁, l₂, heq, -, -⟩ := pyminfold_decomp k xs x
  rw [heq]
  exact List.mem_append_right l₁ (List.mem_cons_self _ _)

lemma pyminfold_le {α β : Type} [LinearOrder β] (k : α → β) (xs : List α) (x : α) :
    ∀ a ∈ x :: xs, k (pyminfold k x xs) ≤ k a := by
  obtain ⟨l₁, l₂, heq, h₁, h₂⟩ := pyminfold_decomp k xs x
  intro a ha
  rw [heq] at ha
  rcases List.mem_append.mp ha with ha | ha
  · exact le_of_lt (h₁ a ha)
  · rcases List.mem_cons.mp ha with rfl | ha
    · exact le_refl _
    · exact h₂ a ha

lemma timeline_loop_eq (curr endt : ℕ) :
    timeline_loop curr endt = List.range' curr (endt + 1 - curr) := by
  generalize hn : endt + 1 - curr = n
  induction n generalizing curr with
  | zero =>
    have h : ¬ curr ≤ endt := by omega
    rw [timeline_loop, dif_neg h]
    rfl
  | succ n ih =>
    have hc : curr ≤ endt := by omega
    rw [timeline_loop, dif_pos hc, ih (curr + 1) (by omega)]
    rfl

lemma generate_full_timeline_eq : generate_full_timeline = List.range' 540 391 := by
  show timeline_loop 540 930 = List.range' 540 391
  rw [timeline_loop_eq]

lemma findSome?_id_eq_head {α : Type} (values : List (Option α)) :
    values.findSome? id = (values.filterMap id).head? := by
  induction values with
  | nil => rfl
  | cons v vs ih =>
    cases v with
    | none =>
      rw [List.findSome?_cons, List.filterMap_cons]
      exact ih
    | some a => simp [List.findSome?_cons, List.filterMap_cons]

lemma filter_key_len_le {s : List (ℕ × Option ℚ)} (h : (s.map Prod.fst).Nodup) (g : ℕ) :
    (s.filter (fun p => decide (p.1 = g))).length ≤ 1 := by
  induction s with
  | nil => simp
  | cons p ps ih =>
    rw [List.map_cons, List.nodup_cons] at h
    obtain ⟨hp, hps⟩ := h
    by_cases hg : p.1 = g
    · have hnil : ps.filter (fun q => decide (q.1 = g)) = [] := by
        rw [List.filter_eq_nil_iff]
        intro q hq hdec
        have hq1 : q.1 ∈ List.map Prod.fst ps := List.mem_map_of_mem Prod.fst hq
        have hpq : p.1 = q.1 := hg.trans (of_decide_eq_true hdec).symm
        exact hp (hpq ▸ hq1)
      simp [List.filter_cons, hg, hnil]
    · simpa [List.filter_cons, hg] using ih hps

lemma merge_left_length (grid : List ℕ) (s : List (ℕ × Option ℚ))
    (h : ∀ g, (s.filter (fun p => decide (p.1 = g))).length ≤ 1) :
    (merge_left grid s).length = grid.length := by
  induction grid with
  | nil => rfl
  | cons g gs ih =>
    have hg := h g
    simp only [merge_left] at ih ⊢
    rw [List.flatMap_cons, List.length_append, ih, List.length_cons]
    cases hm : s.filter (fun p => decide (p.1 = g)) with
    | nil => simp only [List.length_singleton]; omega
    | cons q qs =>
      rw [hm] at hg
      simp only [List.length_cons] at hg
      have hqs : qs = [] := List.length_eq_zero.mp (by omega)
      subst hqs
      simp only [List.map_cons, List.map_nil, List.length_singleton]
      omega

lemma merge_left_slots (grid : List ℕ) (s : List (ℕ × Option ℚ)) :
    ∀ p ∈ merge_left grid s, p.2 = none ∨ ∃ q ∈ s, q.1 = p.1 ∧ p.2 = some q.2 := by
  intro p hp
  simp only [merge_left] at hp
  rw [List.mem_flatMap] at hp
  obtain ⟨g, _, hpg⟩ := hp
  cases hm : s.filter (fun r => decide (r.1 = g)) with
  | nil =>
    rw [hm] at hpg
    simp only [List.mem_singleton] at hpg
    left
    rw [hpg]
  | cons q qs =>
    rw [hm] at hpg
    rw [List.mem_map] at hpg
    obtain ⟨r, hr, hpr⟩ := hpg
    have hrs : r ∈ s := List.mem_of_mem_filter (hm ▸ hr)
    right
    exact ⟨r, hrs, by rw [← hpr], by rw [← hpr]⟩

lemma process_df_mem {samples : List Sample} {q : ℕ × Option ℚ}
    (h : q ∈ process_df samples) :
    ∃ s ∈ samples, q = (sample_time_hm s.thistime, s.nowVal) := by
  simp only [process_df] at h
  rw [List.mem_map] at h
  obtain ⟨t, ht, hq⟩ := h
  exact ⟨t, (List.perm_insertionSort sample_le samples).mem_iff.mp ht, hq.symm⟩

lemma process_df_labels_nodup {samples : List Sample}
    (h : (samples.map (fun s => sample_time_hm s.thistime)).Nodup) :
    ((process_df samples).map Prod.fst).Nodup := by
  have hperm := (List.perm_insertionSort sample_le samples).map
    (fun s => (sample_time_hm s.thistime, s.nowVal))
  have h2 : ((samples.map
      (fun s => (sample_time_hm s.thistime, s.nowVal))).map Prod.fst).Nodup := by
    rw [List.map_map]
    exact h
  simp only [process_df]
  exact ((hperm.map Prod.fst).nodup_iff).mpr h2

lemma foldl_append_eq_flatten {α β : Type} (f : α → List β) (l : List α) :
    ∀ init : List β,
      l.foldl (fun acc x => acc ++ f x) init = init ++ (l.map f).flatten := by
  induction l with
  | nil => intro init; simp
  | cons x xs ih =>
    intro init
    simp only [List.foldl_cons, List.map_cons, List.flatten_cons, ih (init ++ f x)]
    rw [List.append_assoc]

lemma loop_cond_false {now cand : ℕ} {H : ℕ → Bool}
    (hc : ¬(is_krx_trading_day cand H = true ∧ now < cand * 1440 + KRX_OPEN_MINUTE)) :
    (is_krx_trading_day cand H && decide (now < cand * 1440 + KRX_OPEN_MINUTE)) = false := by
  by_cases hA : is_krx_trading_day cand H = true
  · have hB : ¬ now < cand * 1440 + KRX_OPEN_MINUTE := fun hB => hc ⟨hA, hB⟩
    simp [hA, hB]
  · simp [Bool.eq_false_iff.mpr hA]

lemma next_open_loop_hit {now cand fuel : ℕ} {H : ℕ → Bool}
    (h1 : is_krx_trading_day cand H = true)
    (h2 : now < cand * 1440 + KRX_OPEN_MINUTE) :
    next_open_loop now H (fuel + 1) cand = cand * 1440 + KRX_OPEN_MINUTE := by
  simp [next_open_loop, h1, h2]

lemma next_open_loop_step {now cand fuel : ℕ} {H : ℕ → Bool}
    (hc : ¬(is_krx_trading_day cand H = true ∧ now < cand * 1440 + KRX_OPEN_MINUTE)) :
    next_open_loop now H (fuel + 1) cand = next_open_loop now H fuel (cand + 1) := by
  simp [next_open_loop, loop_cond_false hc]

lemma next_open_loop_found (now : ℕ) (H : ℕ → Bool) :
    ∀ fuel cand : ℕ,
      (∃ d, cand ≤ d ∧ d < cand + fuel ∧ is_krx_trading_day d H = true ∧
        now < d * 1440 + KRX_OPEN_MINUTE) →
      ∃ d₀, next_open_loop now H fuel cand = d₀ * 1440 + KRX_OPEN_MINUTE
        ∧ cand ≤ d₀ ∧ is_krx_trading_day d₀ H = true
        ∧ now < d₀ * 1440 + KRX_OPEN_MINUTE
        ∧ ∀ d, cand ≤ d → is_krx_trading_day d H = true →
            now < d * 1440 + KRX_OPEN_MINUTE → d₀ ≤ d := by
  intro fuel
  induction fuel with
  | zero =>
    intro cand h
    obtain ⟨d, h1, h2, -, -⟩ := h
    exact absurd h2 (by omega)
  | succ fuel ih =>
    intro cand h
    by_cases hc : is_krx_trading_day cand H = true ∧ now < cand * 1440 + KRX_OPEN_MINUTE
    · exact ⟨cand, next_open_loop_hit hc.1 hc.2, le_refl _, hc.1, hc.2,
        fun d hd _ _ => hd⟩
    · obtain ⟨d, h1, h2, h3, h4⟩ := h
      have hd : cand + 1 ≤ d := by
        rcases Nat.eq_or_lt_of_le h1 with rfl | hlt
        · exact absurd ⟨h3, h4⟩ hc
        · omega
      obtain ⟨d₀, e1, e2, e3, e4, e5⟩ := ih (cand + 1) ⟨d, hd, by omega, h3, h4⟩
      refine ⟨d₀, (next_open_loop_step hc).trans e1, by omega, e3, e4, ?_⟩
      intro d' hd' ht' ho'
      rcases Nat.eq_or_lt_of_le hd' with rfl | h'
      · exact absurd ⟨ht', ho'⟩ hc
      · exact e5 d' (by omega) ht' ho'

lemma next_open_loop_exhaust (now : ℕ) (H : ℕ → Bool) :
    ∀ fuel cand : ℕ,
      (∀ d, cand ≤ d → d < cand + fuel →
        ¬(is_krx_trading_day d H = true ∧ now < d * 1440 + KRX_OPEN_MINUTE)) →
      next_open_loop now H fuel cand = (cand + fuel) * 1440 + KRX_OPEN_MINUTE := by
  intro fuel
  induction fuel with
  | zero => intro cand _; rfl
  | succ fuel ih =>
    intro cand hall
    rw [next_open_loop_step (hall cand (le_refl _) (by omega))]
    rw [ih (cand + 1) (fun d hd1 hd2 => hall d (by omega) (by omega))]
    omega

lemma cached_loop_skip {current : ℕ} {fetch : String → Except String (List Row)}
    (c : String) (rest : List String) (acc : Option String)
    (h : no_resolve current fetch c) :
    ∃ acc2, cached_loop current fetch (c :: rest) acc = cached_loop current fetch rest acc2 := by
  rcases h with ⟨e, he⟩ | ⟨rows, hr, hsel⟩
  · exact ⟨some e, by simp [cached_loop, he]⟩
  · exact ⟨acc, by simp [cached_loop, hr, hsel]⟩

lemma cached_loop_skip_all {current : ℕ} {fetch : String → Except String (List Row)} :
    ∀ (l rest : List String) (acc : Option String),
      (∀ c ∈ l, no_resolve current fetch c) →
      ∃ acc2, cached_loop current fetch (l ++ rest) acc = cached_loop current fetch rest acc2 := by
  intro l
  induction l with
  | nil => intro rest acc _; exact ⟨acc, rfl⟩
  | cons c cs ih =>
    intro rest acc hall
    obtain ⟨acc1, h1⟩ := cached_loop_skip c (cs ++ rest) acc
      (hall c (List.mem_cons_self c cs))
    obtain ⟨acc2, h2⟩ := ih rest acc1 (fun c' hc' => hall c' (List.mem_cons_of_mem c hc'))
    exact ⟨acc2, by rw [List.cons_append, h1, h2]⟩

lemma cached_loop_keep {current : ℕ} {fetch : String → Except String (List Row)} :
    ∀ (l : List String) (acc : Option String),
      (∀ c ∈ l, ∃ rows, fetch c = Except.ok rows ∧
        select_latest_kospi_night_contract current rows = none) →
      cached_loop current fetch l acc = cached_loop current fetch [] acc := by
  intro l
  induction l with
  | nil => intro acc _; rfl
  | cons c cs ih =>
    intro acc hall
    obtain ⟨rows, hr, hsel⟩ := hall c (List.mem_cons_self c cs)
    rw [show cached_loop current fetch (c :: cs) acc = cached_loop current fetch cs acc by
      simp [cached_loop, hr, hsel]]
    exact ih acc (fun c' hc' => hall c' (List.mem_cons_of_mem c hc'))

lemma cached_loop_first_hit {current : ℕ} {fetch : String → Except String (List Row)}
    {c : String} {post : List String} {rows : List Row} {r : Row} {acc : Option String}
    (hok : fetch c = Except.ok rows)
    (hsel : select_latest_kospi_night_contract current rows = some r) :
    cached_loop current fetch (c :: post) acc = (some r, none) := by
  simp [cached_loop, hok, hsel]

lemma insertionSort_row_desc_head {l : List Row} {r : Row} {t : List Row}
    (h : List.insertionSort row_desc l = r :: t) :
    r ∈ l ∧ ∀ a ∈ l, row_key a ≤ row_key r := by
  have hperm := List.perm_insertionSort row_desc l
  have hs := List.sorted_insertionSort row_desc l
  rw [h] at hperm hs
  rw [List.sorted_cons] at hs
  refine ⟨hperm.mem_iff.mp (List.mem_cons_self r t), ?_⟩
  intro a ha
  have ha2 : a ∈ r :: t := hperm.mem_iff.mpr ha
  rcases List.mem_cons.mp ha2 with rfl | ha2
  · exact le_refl _
  · exact hs.1 a ha2

lemma months_nonempty (c : ℕ × Row) (cs : List (ℕ × Row)) :
    ∃ m ms, candidate_months (c :: cs) = m :: ms := by
  have hmem : c.1 ∈ candidate_months (c :: cs) := by
    unfold candidate_months
    rw [List.mem_insertionSort, List.mem_dedup]
    exact List.mem_map_of_mem Prod.fst (List.mem_cons_self c cs)
  cases hcm : candidate_months (c :: cs) with
  | nil => rw [hcm] at hmem; cases hmem
  | cons m ms => exact ⟨m, ms, rfl⟩

lemma mem_candidate_months {cands : List (ℕ × Row)} {m : ℕ} :
    m ∈ candidate_months cands ↔ m ∈ cands.map Prod.fst := by
  unfold candidate_months
  rw [List.mem_insertionSort, List.mem_dedup]

lemma target_month_of_spec {cser : ℕ} {cands : List (ℕ × Row)} {m : ℕ}
    (h : target_month_of cser cands = some m) :
    m ∈ cands.map Prod.fst ∧
      ∀ m' ∈ cands.map Prod.fst, month_key cser m ≤ month_key cser m' := by
  unfold target_month_of at h
  cases hcm : candidate_months cands with
  | nil => rw [hcm] at h; cases h
  | cons m0 ms =>
    rw [hcm] at h
    have hm : pyminfold (month_key cser) m0 ms = m := Option.some.inj h
    constructor
    · have hmem := pyminfold_mem (month_key cser) ms m0
      rw [hm] at hmem
      exact mem_candidate_months.mp (hcm ▸ hmem)
    · intro m' hm'
      have hm'2 : m' ∈ m0 :: ms := hcm ▸ mem_candidate_months.mpr hm'
      have := pyminfold_le (month_key cser) ms m0 m' hm'2
      rw [hm] at this
      exact this

lemma select_eq_nil {current_yyyymm : ℕ} {rows : List Row}
    (hb : build_kospi_night_candidates rows = []) :
    select_latest_kospi_night_contract current_yyyymm rows = none := by
  unfold select_latest_kospi_night_contract
  rw [hb]

lemma select_eq_of_build {current_yyyymm : ℕ} {rows : List Row} {c : ℕ × Row}
    {cs : List (ℕ × Row)} (hb : build_kospi_night_candidates rows = c :: cs) :
    select_latest_kospi_night_contract current_yyyymm rows =
      match target_month_of (yyyymm_to_serial current_yyyymm) (c :: cs) with
      | none => none
      | some target_month => (same_month_rows_of (c :: cs) target_month).head? := by
  unfold select_latest_kospi_night_contract
  rw [hb]

lemma select_spec {current_yyyymm : ℕ} {rows : List Row} {r : Row}
    (h : select_latest_kospi_night_contract current_yyyymm rows = some r) :
    ∃ m, (m, r) ∈ build_kospi_night_candidates rows
      ∧ (∀ m' ∈ (build_kospi_night_candidates rows).map Prod.fst,
          month_key (yyyymm_to_serial current_yyyymm) m ≤
            month_key (yyyymm_to_serial current_yyyymm) m')
      ∧ (∀ r', (m, r') ∈ build_kospi_night_candidates rows → row_key r' ≤ row_key r) := by
  cases hb : build_kospi_night_candidates rows with
  | nil => rw [select_eq_nil hb] at h; cases h
  | cons c cs =>
    rw [select_eq_of_build hb] at h
    cases ht : target_month_of (yyyymm_to_serial current_yyyymm) (c :: cs) with
    | none =>
      rw [ht] at h
      exact Option.noConfusion h
    | some m =>
      rw [ht] at h
      have h2 : (same_month_rows_of (c :: cs) m).head? = some r := h
      obtain ⟨hmem, hmin⟩ := target_month_of_spec ht
      unfold same_month_rows_of at h2
      cases hs : List.insertionSort row_desc
          (((c :: cs).filter (fun p => decide (p.1 = m))).map Prod.snd) with
      | nil => rw [hs] at h2; cases h2
      | cons r0 t =>
        rw [hs] at h2
        have hr0 : r0 = r := Option.some.inj h2
        subst hr0
        obtain ⟨hr_mem, hr_max⟩ := insertionSort_row_desc_head hs
        rw [List.mem_map] at hr_mem
        obtain ⟨p, hp_f, hp_snd⟩ := hr_mem
        have hp_mem : p ∈ c :: cs := List.mem_of_mem_filter hp_f
        have hp_fst : p.1 = m := of_decide_eq_true (List.mem_filter.mp hp_f).2
        refine ⟨m, ?_, ?_, ?_⟩
        · exact (Prod.ext_iff.mpr ⟨hp_fst, hp_snd⟩ :
            p = (m, r0)) ▸ hp_mem
        · exact hmin
        · intro r' hr'
          refine hr_max r' ?_
          rw [List.mem_map]
          exact ⟨(m, r'), List.mem_filter.mpr ⟨hr', by simp⟩, rfl⟩

lemma select_isSome {current_yyyymm : ℕ} {rows : List Row}
    (h : build_kospi_night_candidates rows ≠ []) :
    ∃ r, select_latest_kospi_night_contract current_yyyymm rows = some r := by
  cases hb : build_kospi_night_candidates rows with
  | nil => exact absurd hb h
  | cons c cs =>
    obtain ⟨m, ms, hcm⟩ := months_nonempty c cs
    have ht : target_month_of (yyyymm_to_serial current_yyyymm) (c :: cs)
        = some (pyminfold (month_key (yyyymm_to_serial current_yyyymm)) m ms) := by
      unfold target_month_of
      rw [hcm]
    rw [select_eq_of_build hb, ht]
    show ∃ r, (same_month_rows_of (c :: cs)
      (pyminfold (month_key (yyyymm_to_serial current_yyyymm)) m ms)).head? = some r
    have htm_mem : pyminfold (month_key (yyyymm_to_serial current_yyyymm)) m ms
        ∈ (c :: cs).map Prod.fst :=
      mem_candidate_months.mp
        (hcm ▸ pyminfold_mem (month_key (yyyymm_to_serial current_yyyymm)) ms m)
    rw [List.mem_map] at htm_mem
    obtain ⟨p, hp_mem, hp_fst⟩ := htm_mem
    have hbase : p.2 ∈ ((c :: cs).filter
        (fun q => decide
          (q.1 = pyminfold (month_key (yyyymm_to_serial current_yyyymm)) m ms))).map
          Prod.snd :=
      List.mem_map_of_mem Prod.snd (List.mem_filter.mpr ⟨hp_mem, by simp [hp_fst]⟩)
    have hsorted_mem := (List.mem_insertionSort (r := row_desc)).mpr hbase
    unfold same_month_rows_of
    cases hs : List.insertionSort row_desc
        (((c :: cs).filter (fun q => decide
          (q.1 = pyminfold (month_key (yyyymm_to_serial current_yyyymm)) m ms))).map
            Prod.snd) with
    | nil => rw [hs] at hsorted_mem; cases hsorted_mem
    | cons r0 t => exact ⟨r0, rfl⟩

lemma countdown_eq (now_kst : ℕ) (H : ℕ → Bool) :
    get_market_countdown_context now_kst H =
      if (is_krx_trading_day (now_kst / 1440) H
          && (decide ((now_kst / 1440) * 1440 + KRX_OPEN_MINUTE ≤ now_kst)
              && decide (now_kst < (now_kst / 1440) * 1440 + KRX_CLOSE_MINUTE))) = true then
        { market_state := "open",
          target_dt_kst := (now_kst / 1440) * 1440 + KRX_CLOSE_MINUTE,
          label := "장 종료까지" }
      else
        { market_state := "closed",
          target_dt_kst := get_next_krx_open_datetime now_kst H,
          label := "다음 장 시작까지" } := rfl

/-- C6: for every instant and holiday set, the market state is "open" exactly
when the instant falls on a trading day within the half-open session interval
`[open, close)`; in particular at an instant exactly at session close (15:30)
the state is "closed" and the countdown target is `get_next_krx_open_datetime`,
which (whenever a trading day exists in the 370-day window) is the 09:00 open
instant of the first trading day whose open lies strictly after the instant,
as found by the forward day-by-day walk skipping weekends and holidays. -/
theorem c6_session_open_iff_and_close_boundary (now_kst : ℕ) (H : ℕ → Bool) :
    ((get_market_countdown_context now_kst H).market_state = "open" ↔
      (is_krx_trading_day (now_kst / 1440) H = true
        ∧ (now_kst / 1440) * 1440 + KRX_OPEN_MINUTE ≤ now_kst
        ∧ now_kst < (now_kst / 1440) * 1440 + KRX_CLOSE_MINUTE))
    ∧ (now_kst % 1440 = KRX_CLOSE_MINUTE →
        (get_market_countdown_context now_kst H).market_state = "closed"
        ∧ (get_market_countdown_context now_kst H).target_dt_kst
            = get_next_krx_open_datetime now_kst H
        ∧ ((∃ d, now_kst / 1440 ≤ d ∧ d < now_kst / 1440 + 370
              ∧ is_krx_trading_day d H = true
              ∧ now_kst < d * 1440 + KRX_OPEN_MINUTE) →
            is_krx_trading_day
              ((get_market_countdown_context now_kst H).target_dt_kst / 1440) H = true
            ∧ now_kst < (get_market_countdown_context now_kst H).target_dt_kst
            ∧ (get_market_countdown_context now_kst H).target_dt_kst % 1440
                = KRX_OPEN_MINUTE
            ∧ ∀ d, is_krx_trading_day d H = true →
                now_kst < d * 1440 + KRX_OPEN_MINUTE →
                (get_market_countdown_context now_kst H).target_dt_kst
                  ≤ d * 1440 + KRX_OPEN_MINUTE)) := by
  by_cases hc : (is_krx_trading_day (now_kst / 1440) H
      && (decide ((now_kst / 1440) * 1440 + KRX_OPEN_MINUTE ≤ now_kst)
          && decide (now_kst < (now_kst / 1440) * 1440 + KRX_CLOSE_MINUTE))) = true
  · have hS : (get_market_countdown_context now_kst H).market_state = "open" := by
      rw [countdown_eq, if_pos hc]
    rw [Bool.and_eq_true, Bool.and_eq_true, decide_eq_true_eq, decide_eq_true_eq] at hc
    constructor
    · rw [hS]
      exact ⟨fun _ => ⟨hc.1, hc.2.1, hc.2.2⟩, fun _ => rfl⟩
    · intro hclose
      exfalso
      have h3 := hc.2.2
      simp only [KRX_CLOSE_MINUTE] at h3 hclose
      omega
  · have hS : (get_market_countdown_context now_kst H).market_state = "closed" := by
      rw [countdown_eq, if_neg hc]
    have hT : (get_market_countdown_context now_kst H).target_dt_kst
        = get_next_krx_open_datetime now_kst H := by
      rw [countdown_eq, if_neg hc]
    constructor
    · rw [hS]
      refine ⟨fun habs => absurd habs (by decide), fun hconj => absurd ?_ hc⟩
      rw [Bool.and_eq_true, Bool.and_eq_true, decide_eq_true_eq, decide_eq_true_eq]
      exact ⟨hconj.1, hconj.2.1, hconj.2.2⟩
    · intro _
      refine ⟨hS, hT, ?_⟩
      intro hex
      obtain ⟨d₀, e1, e2, e3, e4, e5⟩ :=
        next_open_loop_found now_kst H 370 (now_kst / 1440) hex
      have hT2 : (get_market_countdown_context now_kst H).target_dt_kst
          = d₀ * 1440 + KRX_OPEN_MINUTE := by
        rw [hT]; exact e1
      refine ⟨?_, ?_, ?_, ?_⟩
      · rw [hT2]
        have hdiv : (d₀ * 1440 + KRX_OPEN_MINUTE) / 1440 = d₀ := by
          simp only [KRX_OPEN_MINUTE]; omega
        rw [hdiv]; exact e3
      · rw [hT2]; exact e4
      · rw [hT2]; simp only [KRX_OPEN_MINUTE]; omega
      · intro d htd hod
        rw [hT2]
        by_cases hd : now_kst / 1440 ≤ d
        · have := e5 d hd htd hod
          omega
        · exfalso
          simp only [KRX_OPEN_MINUTE] at hod
          omega

/-- Witness for C6: at 15:30 of a holiday-free Monday (minute 930 of day 0),
the state is "closed" and the countdown target is a 09:00 open instant. -/
theorem c6_witness :
    (get_market_countdown_context 930 (fun _ => false)).market_state = "closed"
    ∧ (get_market_countdown_context 930 (fun _ => false)).target_dt_kst % 1440
        = KRX_OPEN_MINUTE := by
  obtain ⟨hstate, htarget, hrest⟩ :=
    (c6_session_open_iff_and_close_boundary 930 (fun _ => false)).2 (by decide)
  have hex : ∃ d, 930 / 1440 ≤ d ∧ d < 930 / 1440 + 370
      ∧ is_krx_trading_day d (fun _ => false) = true
      ∧ 930 < d * 1440 + KRX_OPEN_MINUTE :=
    ⟨1, by decide, by decide, by decide, by decide⟩
  obtain ⟨-, -, h3, -⟩ := hrest hex
  exact ⟨hstate, h3⟩

/-- C7 (amended): when the forward walk exhausts its 370-iteration bound (no
trading-day open strictly after `now` within the window), the function raises
nothing and silently returns the computed 09:00 instant of the day 370 days
after `now`'s date. -/
theorem c7_exhausted_walk_returns_default (now_kst : ℕ) (H : ℕ → Bool)
    (h : ∀ d, now_kst / 1440 ≤ d → d < now_kst / 1440 + 370 →
      ¬(is_krx_trading_day d H = true ∧ now_kst < d * 1440 + KRX_OPEN_MINUTE)) :
    get_next_krx_open_datetime now_kst H
      = (now_kst / 1440 + 370) * 1440 + KRX_OPEN_MINUTE :=
  next_open_loop_exhaust now_kst H 370 (now_kst / 1440) h

/-- Witness for C7 (amended): with every day of the window marked as a
holiday, the walk from instant 0 silently yields the default instant. -/
theorem c7_witness :
    get_next_krx_open_datetime 0 (fun d => decide (d ≤ 370))
      = (0 / 1440 + 370) * 1440 + KRX_OPEN_MINUTE := by
  refine c7_exhausted_walk_returns_default 0 (fun d => decide (d ≤ 370)) ?_
  intro d h1 h2 hconj
  have hd : decide (d ≤ 370) = true := decide_eq_true (by omega)
  have hfalse : is_krx_trading_day d (fun d => decide (d ≤ 370)) = false := by
    unfold is_krx_trading_day
    simp only [hd, Bool.not_true]
    split <;> rfl
  rw [hfalse] at hconj
  exact Bool.noConfusion hconj.1

/-- Counterexample for C7 as stated: with every day of the 370-day window a
holiday, `get_next_krx_open_datetime` does not surface any error; it returns
the ordinary instant 533340 (= day 370 at 09:00) even though day 370 is not a
trading day, i.e. it silently defaults to a computed open instant. -/
theorem c7_counterexample :
    get_next_krx_open_datetime 0 (fun d => decide (d ≤ 370)) = 533340
    ∧ is_krx_trading_day 370 (fun d => decide (d ≤ 370)) = false := by
  constructor
  · have h := next_open_loop_exhaust 0 (fun d => decide (d ≤ 370)) 370 0 ?_
    · show next_open_loop 0 (fun d => decide (d ≤ 370)) 370 (0 / 1440) = 533340
      rw [show (0 : ℕ) / 1440 = 0 from rfl, h]
      simp only [KRX_OPEN_MINUTE]
    · intro d h1 h2 hconj
      have hd : decide (d ≤ 370) = true := decide_eq_true (by omega)
      have hfalse : is_krx_trading_day d (fun d => decide (d ≤ 370)) = false := by
        unfold is_krx_trading_day
        simp only [hd, Bool.not_true]
        split <;> rfl
      rw [hfalse] at hconj
      exact Bool.noConfusion hconj.1
  · decide

/-- C1 (amended): for every sample series with at most one sample per minute
label, the merged timeline has exactly as many slots as the grid has labels,
and each slot is either absent or carries the value of a sample of the series
at that slot's minute label; the canonical grid is the 391 minute labels
09:00..15:30.  (With duplicate samples for one minute label the left merge
emits one slot per duplicate in source order instead of keeping only the
latest-received one — see the counterexample.) -/
theorem c1_timeline_alignment (samples : List Sample)
    (h : (samples.map (fun s => sample_time_hm s.thistime)).Nodup) :
    (merge_left generate_full_timeline (process_df samples)).length
      = generate_full_timeline.length
    ∧ generate_full_timeline = List.range' 540 391
    ∧ ∀ p ∈ merge_left generate_full_timeline (process_df samples),
        p.2 = none ∨ ∃ s ∈ samples, sample_time_hm s.thistime = p.1
          ∧ p.2 = some s.nowVal := by
  refine ⟨?_, generate_full_timeline_eq, ?_⟩
  · exact merge_left_length _ _ (fun g => filter_key_len_le (process_df_labels_nodup h) g)
  · intro p hp
    rcases merge_left_slots _ _ p hp with hnone | ⟨q, hq, hq1, hq2⟩
    · exact Or.inl hnone
    · obtain ⟨s, hs, hqs⟩ := process_df_mem hq
      subst hqs
      exact Or.inr ⟨s, hs, hq1, hq2⟩

/-- Witness for C1 (amended): two samples in distinct minutes (09:05 and
09:10) align onto the canonical grid with exactly one slot per grid label. -/
theorem c1_witness :
    (merge_left generate_full_timeline
        (process_df [⟨20240101090500, some 100⟩, ⟨20240101091000, some (203/2)⟩])).length
      = generate_full_timeline.length :=
  (c1_timeline_alignment
    [⟨20240101090500, some 100⟩, ⟨20240101091000, some (203/2)⟩] (by decide)).1

set_option maxRecDepth 8000 in
/-- Counterexample for C1 as stated: two samples within the same minute
(09:05:00 and 09:05:30) make the merged timeline 392 slots long while the
canonical grid has 391 labels — the left merge emits one slot per duplicate
sample instead of keeping only the latest-received one, so the aligned series
does not have exactly as many slots as the grid has labels. -/
theorem c1_counterexample :
    (merge_left generate_full_timeline
        (process_df [⟨20240101090500, some 100⟩, ⟨20240101090530, some 101⟩])).length
      = 392
    ∧ generate_full_timeline.length = 391 := by
  rw [generate_full_timeline_eq]
  constructor
  · decide
  · decide

/-- C2 (amended): when no non-absent value exists the bounds are absent; when
the first non-absent value `ref` exists, the non-absent values are `x :: xs`
with `ref = x`, the computed maximum/minimum really bound them, a flat series
(`margin = 0`) yields exactly `(ref - ref*0.005, ref + ref*0.005)`, a non-flat
series yields exactly `(ref - 1.15*margin, ref + 1.15*margin)` with
`margin = max (max - ref) (ref - min)`, and `low ≤ ref ≤ high` holds whenever
the series is non-flat or the reference is nonnegative.  (For a flat series
with a negative reference the returned interval is inverted — see the
counterexample.) -/
theorem c2_anchored_bounds (values : List (Option ℚ)) :
    (values.findSome? id = none → calculate_y_axis_bounds values = none)
    ∧ ∀ ref x xs, values.findSome? id = some ref → values.filterMap id = x :: xs →
        ref = x
        ∧ pymaxfold id x xs ∈ x :: xs
        ∧ pyminfold id x xs ∈ x :: xs
        ∧ (∀ v ∈ x :: xs, pyminfold id x xs ≤ v ∧ v ≤ pymaxfold id x xs)
        ∧ (max (pymaxfold id x xs - ref) (ref - pyminfold id x xs) = 0 →
            calculate_y_axis_bounds values
              = some (ref - ref * 0.005, ref + ref * 0.005))
        ∧ (max (pymaxfold id x xs - ref) (ref - pyminfold id x xs) ≠ 0 →
            calculate_y_axis_bounds values
              = some
                (ref - max (pymaxfold id x xs - ref) (ref - pyminfold id x xs) * 1.15,
                 ref + max (pymaxfold id x xs - ref) (ref - pyminfold id x xs) * 1.15))
        ∧ (∀ lo hi, calculate_y_axis_bounds values = some (lo, hi) →
            (0 ≤ ref ∨ max (pymaxfold id x xs - ref) (ref - pyminfold id x xs) ≠ 0) →
            lo ≤ ref ∧ ref ≤ hi) := by
  constructor
  · intro h
    unfold calculate_y_axis_bounds
    rw [h]
  · intro ref x xs h1 h2
    have href : ref = x := by
      rw [findSome?_id_eq_head, h2] at h1
      exact (Option.some.inj h1).symm
    have hcalc : calculate_y_axis_bounds values =
        some
          (ref - (if max (pymaxfold id x xs - ref) (ref - pyminfold id x xs) = 0
                  then ref * 0.005
                  else max (pymaxfold id x xs - ref) (ref - pyminfold id x xs) * 1.15),
           ref + (if max (pymaxfold id x xs - ref) (ref - pyminfold id x xs) = 0
                  then ref * 0.005
                  else max (pymaxfold id x xs - ref) (ref - pyminfold id x xs) * 1.15)) := by
      unfold calculate_y_axis_bounds
      rw [h1, h2]
    have hboth : ∀ v ∈ x :: xs, pyminfold id x xs ≤ v ∧ v ≤ pymaxfold id x xs :=
      fun v hv => ⟨pyminfold_le id xs x v hv, pymaxfold_le id xs x v hv⟩
    refine ⟨href, pymaxfold_mem id xs x, pyminfold_mem id xs x, hboth, ?_, ?_, ?_⟩
    · intro h0
      rw [hcalc, if_pos h0]
    · intro h0
      rw [hcalc, if_neg h0]
    · intro lo hi hsome hcases
      have hpair := Option.some.inj (hcalc.symm.trans hsome)
      have hlo := congrArg Prod.fst hpair
      have hhi := congrArg Prod.snd hpair
      simp only [] at hlo hhi
      have hrefmem : ref ∈ x :: xs := href ▸ List.mem_cons_self x xs
      obtain ⟨hminle, hmaxle⟩ := hboth ref hrefmem
      by_cases hM0 : max (pymaxfold id x xs - ref) (ref - pyminfold id x xs) = 0
      · rcases hcases with h0ref | hne
        · rw [if_pos hM0] at hlo hhi
          have hmul : 0 ≤ ref * 0.005 := mul_nonneg h0ref (by norm_num)
          constructor
          · rw [← hlo]; linarith
          · rw [← hhi]; linarith
        · exact absurd hM0 hne
      · have hMnonneg : 0 ≤ max (pymaxfold id x xs - ref) (ref - pyminfold id x xs) :=
          le_trans (by linarith) (le_max_left _ _)
        have hMpos : 0 < max (pymaxfold id x xs - ref) (ref - pyminfold id x xs) :=
          lt_of_le_of_ne hMnonneg (Ne.symm hM0)
        have hmul : 0 < max (pymaxfold id x xs - ref) (ref - pyminfold id x xs) * 1.15 :=
          mul_pos hMpos (by norm_num)
        rw [if_neg hM0] at hlo hhi
        constructor
        · rw [← hlo]; linarith
        · rw [← hhi]; linarith

/-- Witness for C2 (amended): the non-flat series `[2, 3]` gets the inflated
anchored bounds around reference 2. -/
theorem c2_witness :
    calculate_y_axis_bounds [some 2, some 3]
      = some
        (2 - max (pymaxfold id (2:ℚ) [3] - 2) (2 - pyminfold id (2:ℚ) [3]) * 1.15,
         2 + max (pymaxfold id (2:ℚ) [3] - 2) (2 - pyminfold id (2:ℚ) [3]) * 1.15) :=
  ((c2_anchored_bounds [some 2, some 3]).2 2 2 [3] rfl rfl).2.2.2.2.2.1
    (by norm_num [pymaxfold, pyminfold, pyfold_best])

/-- Counterexample for C2 as stated: for the flat series whose only value is
the negative reference −1, the code returns
`(low, high) = (−0.995, −1.005)`, and `low ≤ reference` fails
(−0.995 > −1), so `low ≤ reference ≤ high` does not hold for every series. -/
theorem c2_counterexample :
    calculate_y_axis_bounds [some (-1)] = some (-(199/200), -(201/200))
    ∧ ¬ ((-(199/200) : ℚ) ≤ -1) := by
  constructor
  · norm_num [calculate_y_axis_bounds, pymaxfold, pyminfold, pyfold_best,
      List.filterMap, List.findSome?]
  · norm_num

/-- C10: over all (label, value) pairs with a non-absent value (in grid
order), the extrema computation returns the pair with the maximum value and
the pair with the minimum value, where on equal values the pair appearing
earlier in grid order wins (every strictly earlier pair is strictly smaller
for the max, strictly larger for the min); it returns absent exactly when no
non-absent value exists. -/
theorem c10_extrema_first_occurrence (timeline : List ℕ) (values : List (Option ℚ)) :
    (get_extrema_info timeline values = none ↔
      (timeline.zip values).filterMap (fun p => p.2.map (fun v => (p.1, v))) = [])
    ∧ ∀ mx mn, get_extrema_info timeline values = some (mx, mn) →
        (∃ l₁ l₂,
          (timeline.zip values).filterMap (fun p => p.2.map (fun v => (p.1, v)))
              = l₁ ++ mx :: l₂
            ∧ (∀ p ∈ l₁, p.2 < mx.2) ∧ (∀ p ∈ l₂, p.2 ≤ mx.2))
        ∧ (∃ l₁ l₂,
          (timeline.zip values).filterMap (fun p => p.2.map (fun v => (p.1, v)))
              = l₁ ++ mn :: l₂
            ∧ (∀ p ∈ l₁, mn.2 < p.2) ∧ (∀ p ∈ l₂, mn.2 ≤ p.2)) := by
  constructor
  · unfold get_extrema_info
    cases hv : (timeline.zip values).filterMap (fun p => p.2.map (fun v => (p.1, v))) with
    | nil => simp
    | cons x xs => simp
  · intro mx mn h
    unfold get_extrema_info at h
    cases hv : (timeline.zip values).filterMap (fun p => p.2.map (fun v => (p.1, v))) with
    | nil => rw [hv] at h; cases h
    | cons x xs =>
      rw [hv] at h
      have hpair := Option.some.inj h
      have hmx : pymaxfold (fun p => p.2) x xs = mx := congrArg Prod.fst hpair
      have hmn : pyminfold (fun p => p.2) x xs = mn := congrArg Prod.snd hpair
      constructor
      · obtain ⟨l₁, l₂, heq, h₁, h₂⟩ := pymaxfold_decomp (fun p => p.2) xs x
        rw [hmx] at heq h₁ h₂
        exact ⟨l₁, l₂, heq, h₁, h₂⟩
      · obtain ⟨l₁, l₂, heq, h₁, h₂⟩ := pyminfold_decomp (fun p => p.2) xs x
        rw [hmn] at heq h₁ h₂
        exact ⟨l₁, l₂, heq, h₁, h₂⟩

/-- Witness for C10: on labels `[0, 1, 2]` with values `[1, 3, 2]` the
extrema are max `(1, 3)` and min `(0, 1)`, each the first occurrence of its
value. -/
theorem c10_witness :
    (∃ l₁ l₂,
      ([0, 1, 2].zip [some (1:ℚ), some 3, some 2]).filterMap
          (fun p => p.2.map (fun v => (p.1, v)))
        = l₁ ++ ((1:ℕ), (3:ℚ)) :: l₂
      ∧ (∀ p ∈ l₁, p.2 < (3:ℚ)) ∧ (∀ p ∈ l₂, p.2 ≤ (3:ℚ)))
    ∧ (∃ l₁ l₂,
      ([0, 1, 2].zip [some (1:ℚ), some 3, some 2]).filterMap
          (fun p => p.2.map (fun v => (p.1, v)))
        = l₁ ++ ((0:ℕ), (1:ℚ)) :: l₂
      ∧ (∀ p ∈ l₁, (1:ℚ) < p.2) ∧ (∀ p ∈ l₂, (1:ℚ) ≤ p.2)) :=
  (c10_extrema_first_occurrence [0, 1, 2] [some 1, some 3, some 2]).2 (1, 3) (0, 1)
    (by norm_num [get_extrema_info, pymaxfold, pyminfold, pyfold_best,
      List.filterMap_cons, List.filterMap_nil])

lemma lookup_mem {α β : Type} [BEq α] [LawfulBEq α] {l : List (α × β)} {k : α} {v : β}
    (h : List.lookup k l = some v) : (k, v) ∈ l := by
  induction l with
  | nil => cases h
  | cons p ps ih =>
    obtain ⟨k', v'⟩ := p
    cases hbeq : k == k'
    case true =>
      simp only [List.lookup, hbeq] at h
      have hk : k = k' := eq_of_beq hbeq
      have hv : v' = v := Option.some.inj h
      subst hk
      subst hv
      exact List.mem_cons_self _ _
    case false =>
      simp only [List.lookup, hbeq] at h
      exact List.mem_cons_of_mem _ (ih h)

/-- C5 (amended): a list root keeps exactly its map elements in order; a map
root returns the concatenated map elements of the lists under the priority
keys when that collection is non-empty, and otherwise falls back to
concatenating the map elements of every list among all map values in
iteration order — so the fallback triggers exactly when the priority-key pass
contributes no map elements (in particular also when a priority key does hold
a list, but one containing no maps — see the counterexample); extraction
returns an empty list, never an error, when nothing list-shaped is present. -/
theorem c5_extract_rows :
    (∀ items, extract_rows_from_krx_payload (J.arr items) = items.filter J.isObj)
    ∧ (∀ fields, preferred_rows fields
        = (preferred_keys.map (fun k => rows_from_val (List.lookup k fields))).flatten)
    ∧ (∀ fields, preferred_rows fields ≠ [] →
        extract_rows_from_krx_payload (J.obj fields) = preferred_rows fields)
    ∧ (∀ fields, preferred_rows fields = [] →
        extract_rows_from_krx_payload (J.obj fields)
          = ((fields.map Prod.snd).map (fun v => rows_from_val (some v))).flatten)
    ∧ (∀ fields, (∀ kv ∈ fields, ∀ items, kv.2 ≠ J.arr items) →
        extract_rows_from_krx_payload (J.obj fields) = [])
    ∧ extract_rows_from_krx_payload J.null = [] := by
  have hpr_eq : ∀ fields, preferred_rows fields
      = (preferred_keys.map (fun k => rows_from_val (List.lookup k fields))).flatten := by
    intro fields
    unfold preferred_rows
    rw [foldl_append_eq_flatten]
    rw [List.nil_append]
  have hobj_empty : ∀ fields, preferred_rows fields = [] →
      extract_rows_from_krx_payload (J.obj fields)
        = ((fields.map Prod.snd).map (fun v => rows_from_val (some v))).flatten := by
    intro fields hp
    show (if (preferred_rows fields).isEmpty = true then
        (fields.map Prod.snd).foldl (fun rows val => rows ++ rows_from_val (some val)) []
      else preferred_rows fields)
      = ((fields.map Prod.snd).map (fun v => rows_from_val (some v))).flatten
    rw [hp]
    show (fields.map Prod.snd).foldl (fun rows val => rows ++ rows_from_val (some val)) []
      = ((fields.map Prod.snd).map (fun v => rows_from_val (some v))).flatten
    rw [foldl_append_eq_flatten]
    rw [List.nil_append]
  refine ⟨fun items => rfl, hpr_eq, ?_, hobj_empty, ?_, rfl⟩
  · intro fields hne
    cases hp : preferred_rows fields with
    | nil => exact absurd hp hne
    | cons r rs =>
      show (if (preferred_rows fields).isEmpty = true then
          (fields.map Prod.snd).foldl (fun rows val => rows ++ rows_from_val (some val)) []
        else preferred_rows fields)
        = r :: rs
      rw [hp]
      rfl
  · intro fields hnone
    have hrfv : ∀ k, rows_from_val (List.lookup k fields) = [] := by
      intro k
      cases hl : List.lookup k fields with
      | none => rfl
      | some v =>
        cases hv : v with
        | arr items =>
          exfalso
          have hmem : (k, J.arr items) ∈ fields := lookup_mem (hv ▸ hl)
          exact hnone _ hmem items rfl
        | null => rfl
        | bool b => rfl
        | num q => rfl
        | str s => rfl
        | obj f => rfl
    have hpref : preferred_rows fields = [] := by
      rw [hpr_eq]
      rw [List.flatten_eq_nil_iff]
      intro l hl
      rw [List.mem_map] at hl
      obtain ⟨k, hk, hkl⟩ := hl
      rw [← hkl]
      exact hrfv k
    rw [hobj_empty fields hpref]
    rw [List.flatten_eq_nil_iff]
    intro l hl
    rw [List.mem_map] at hl
    obtain ⟨v, hv, hlv⟩ := hl
    rw [List.mem_map] at hv
    obtain ⟨kv, hkv, hkvv⟩ := hv
    rw [← hlv, ← hkvv]
    cases hv2 : kv.2 with
    | arr items => exact absurd hv2 (hnone kv hkv items)
    | null => rfl
    | bool b => rfl
    | num q => rfl
    | str s => rfl
    | obj f => rfl

/-- Witness for C5 (amended): a map whose `output` key holds a list with one
map element returns the priority-key rows. -/
theorem c5_witness :
    extract_rows_from_krx_payload (J.obj [("output", J.arr [J.obj []])])
      = preferred_rows [("output", J.arr [J.obj []])] :=
  c5_extract_rows.2.2.1 [("output", J.arr [J.obj []])]
    (by
      rw [show preferred_rows [("output", J.arr [J.obj []])] = [J.obj []] from rfl]
      exact List.cons_ne_nil _ _)

/-- Counterexample for C5 as stated: in the payload
`{"output": [1], "zzz": [{"k": 1}]}` the priority key `output` does contain a
list, yet extraction still falls back to scanning all values (the priority
pass contributed no map elements) and returns the map found under the
non-priority key `zzz` instead of the empty priority-key concatenation. -/
theorem c5_counterexample :
    List.lookup "output"
        [("output", J.arr [J.num 1]), ("zzz", J.arr [J.obj [("k", J.num 1)]])]
      = some (J.arr [J.num 1])
    ∧ "output" ∈ preferred_keys
    ∧ preferred_rows
        [("output", J.arr [J.num 1]), ("zzz", J.arr [J.obj [("k", J.num 1)]])] = []
    ∧ extract_rows_from_krx_payload
        (J.obj [("output", J.arr [J.num 1]), ("zzz", J.arr [J.obj [("k", J.num 1)]])])
      = [J.obj [("k", J.num 1)]] := by
  refine ⟨rfl, ?_, rfl, rfl⟩
  simp [preferred_keys]

/-- C3: for every row set with at least one parseable candidate and every
fixed current month, the resolver returns a row whose parsed contract month
minimizes the Python tuple
`(|serial(month) − serial(current)|, 0 if month ≥ current else 1, serial(month))`
over all candidate months; in particular, whenever another candidate month is
equally distant from the current month and is future-or-equal, the chosen
month is future-or-equal as well (the tie-break prefers months ≥ current). -/
theorem c3_nearest_month_selection (current_yyyymm : ℕ) (rows : List Row)
    (h : build_kospi_night_candidates rows ≠ []) :
    ∃ r m, select_latest_kospi_night_contract current_yyyymm rows = some r
      ∧ (m, r) ∈ build_kospi_night_candidates rows
      ∧ (∀ m' ∈ (build_kospi_night_candidates rows).map Prod.fst,
          month_key (yyyymm_to_serial current_yyyymm) m ≤
            month_key (yyyymm_to_serial current_yyyymm) m')
      ∧ (∀ m' ∈ (build_kospi_night_candidates rows).map Prod.fst,
          ((yyyymm_to_serial m' : ℤ) - (yyyymm_to_serial current_yyyymm : ℤ)).natAbs
            = ((yyyymm_to_serial m : ℤ) - (yyyymm_to_serial current_yyyymm : ℤ)).natAbs →
          yyyymm_to_serial current_yyyymm ≤ yyyymm_to_serial m' →
          yyyymm_to_serial current_yyyymm ≤ yyyymm_to_serial m) := by
  obtain ⟨r, hr⟩ := select_isSome h
  obtain ⟨m, hmem, hmin, -⟩ := select_spec hr
  refine ⟨r, m, hr, hmem, hmin, ?_⟩
  intro m' hm' hdist hfut
  have hkey := hmin m' hm'
  unfold month_key at hkey
  rw [Prod.Lex.le_iff] at hkey
  dsimp only at hkey
  rcases hkey with hlt | ⟨-, hle2⟩
  · rw [hdist] at hlt
    exact absurd hlt (lt_irrefl _)
  · rw [Prod.Lex.le_iff] at hle2
    dsimp only at hle2
    by_cases hm_fut : yyyymm_to_serial current_yyyymm ≤ yyyymm_to_serial m
    · exact hm_fut
    · exfalso
      rw [if_neg hm_fut, if_pos hfut] at hle2
      rcases hle2 with h10 | ⟨h10, -⟩
      · exact absurd h10 (by norm_num)
      · exact absurd h10 (by norm_num)

/-- Witness for C3: one candidate row for month 202601. -/
theorem c3_witness :
    ∃ r m, select_latest_kospi_night_contract 202601
        [⟨"코스피200 선물", "야간", "코스피200 F 202601 (야간)", "20251230"⟩] = some r
      ∧ (m, r) ∈ build_kospi_night_candidates
          [⟨"코스피200 선물", "야간", "코스피200 F 202601 (야간)", "20251230"⟩]
      ∧ (∀ m' ∈ (build_kospi_night_candidates
            [⟨"코스피200 선물", "야간", "코스피200 F 202601 (야간)", "20251230"⟩]).map Prod.fst,
          month_key (yyyymm_to_serial 202601) m ≤ month_key (yyyymm_to_serial 202601) m')
      ∧ (∀ m' ∈ (build_kospi_night_candidates
            [⟨"코스피200 선물", "야간", "코스피200 F 202601 (야간)", "20251230"⟩]).map Prod.fst,
          ((yyyymm_to_serial m' : ℤ) - (yyyymm_to_serial 202601 : ℤ)).natAbs
            = ((yyyymm_to_serial m : ℤ) - (yyyymm_to_serial 202601 : ℤ)).natAbs →
          yyyymm_to_serial 202601 ≤ yyyymm_to_serial m' →
          yyyymm_to_serial 202601 ≤ yyyymm_to_serial m) :=
  c3_nearest_month_selection 202601
    [⟨"코스피200 선물", "야간", "코스피200 F 202601 (야간)", "20251230"⟩]
    (by
      rw [show build_kospi_night_candidates
          [⟨"코스피200 선물", "야간", "코스피200 F 202601 (야간)", "20251230"⟩]
        = [(202601, ⟨"코스피200 선물", "야간", "코스피200 F 202601 (야간)", "20251230"⟩)]
        from rfl]
      exact List.cons_ne_nil _ _)

/-- C4: contract resolution is a pure function of the row set and the current
month (repeated calls agree), and the returned row belongs to the winning
month with the greatest `(normalize_bas_dd(BAS_DD), ISU_NM)` pair among that
month's rows; consequently, if one row of the winning month has a strictly
greater pair than every other row of that month (e.g. its as-of date was made
strictly more recent), that row is the selected one. -/
theorem c4_within_month_latest (current_yyyymm : ℕ) (rows : List Row) (r : Row)
    (h : select_latest_kospi_night_contract current_yyyymm rows = some r) :
    select_latest_kospi_night_contract current_yyyymm rows
      = select_latest_kospi_night_contract current_yyyymm rows
    ∧ ∃ m, (m, r) ∈ build_kospi_night_candidates rows
      ∧ (∀ r', (m, r') ∈ build_kospi_night_candidates rows → row_key r' ≤ row_key r)
      ∧ (∀ r₀, (m, r₀) ∈ build_kospi_night_candidates rows →
          (∀ r', (m, r') ∈ build_kospi_night_candidates rows → r' ≠ r₀ →
            row_key r' < row_key r₀) →
          r = r₀) := by
  refine ⟨rfl, ?_⟩
  obtain ⟨m, hmem, -, hmax⟩ := select_spec h
  refine ⟨m, hmem, hmax, ?_⟩
  intro r₀ hr₀ hstrict
  by_cases hrr : r = r₀
  · exact hrr
  · exfalso
    have h1 : row_key r < row_key r₀ := hstrict r hmem hrr
    have h2 : row_key r₀ ≤ row_key r := hmax r₀ hr₀
    exact absurd h1 (not_lt.mpr h2)

/-- Witness for C4: one candidate row for month 202601 is selected and is
trivially the greatest of its month. -/
theorem c4_witness :
    select_latest_kospi_night_contract 202601
        [⟨"코스피200 선물", "야간", "코스피200 F 202601 (야간)", "20251230"⟩]
      = select_latest_kospi_night_contract 202601
        [⟨"코스피200 선물", "야간", "코스피200 F 202601 (야간)", "20251230"⟩]
    ∧ ∃ m, (m, (⟨"코스피200 선물", "야간", "코스피200 F 202601 (야간)", "20251230"⟩ : Row))
          ∈ build_kospi_night_candidates
            [⟨"코스피200 선물", "야간", "코스피200 F 202601 (야간)", "20251230"⟩]
      ∧ (∀ r', (m, r') ∈ build_kospi_night_candidates
            [⟨"코스피200 선물", "야간", "코스피200 F 202601 (야간)", "20251230"⟩] →
          row_key r' ≤ row_key ⟨"코스피200 선물", "야간", "코스피200 F 202601 (야간)", "20251230"⟩)
      ∧ (∀ r₀, (m, r₀) ∈ build_kospi_night_candidates
            [⟨"코스피200 선물", "야간", "코스피200 F 202601 (야간)", "20251230"⟩] →
          (∀ r', (m, r') ∈ build_kospi_night_candidates
              [⟨"코스피200 선물", "야간", "코스피200 F 202601 (야간)", "20251230"⟩] →
            r' ≠ r₀ → row_key r' < row_key r₀) →
          (⟨"코스피200 선물", "야간", "코스피200 F 202601 (야간)", "20251230"⟩ : Row) = r₀) :=
  c4_within_month_latest 202601
    [⟨"코스피200 선물", "야간", "코스피200 F 202601 (야간)", "20251230"⟩]
    ⟨"코스피200 선물", "야간", "코스피200 F 202601 (야간)", "20251230"⟩ rfl

/-- C8: when all six primary profile × timeout attempts fail, exactly one
fallback invocation occurs (the invocation count is 1), and when the fallback
also fails the raised failure message is the last primary error's diagnostic
(for an HTTP error, status code with truncated body preview and profile name)
concatenated with the truncated fallback error — so the message contains
both. -/
theorem c8_fallback_once_and_combined_error (attempt : String → ℕ → Except PrimErr J)
    (curl : Except String J) (cerr : String) (e6 : PrimErr)
    (hall : ∀ pt ∈ attempt_pairs header_profiles, ∃ e, attempt pt.1 pt.2 = Except.error e)
    (h6 : attempt "session" 20 = Except.error e6)
    (hcurl : curl = Except.error cerr) :
    (fetch_krx_futures_by_date attempt curl).2 = 1
    ∧ (fetch_krx_futures_by_date attempt curl).1
        = Except.error (mk_request_err "session" e6 ++ " | curl_fallback_error="
            ++ cerr.take 200)
    ∧ (∃ t, mk_request_err "session" e6 ++ " | curl_fallback_error=" ++ cerr.take 200
        = mk_request_err "session" e6 ++ t)
    ∧ (∃ s, mk_request_err "session" e6 ++ " | curl_fallback_error=" ++ cerr.take 200
        = s ++ cerr.take 200) := by
  obtain ⟨e1, h1⟩ := hall ("minimal", 10) (by decide)
  obtain ⟨e2, h2⟩ := hall ("minimal", 20) (by decide)
  obtain ⟨e3, h3⟩ := hall ("navigate", 10) (by decide)
  obtain ⟨e4, h4⟩ := hall ("navigate", 20) (by decide)
  obtain ⟨e5, h5⟩ := hall ("session", 10) (by decide)
  have hloop : primary_attempts_loop attempt (attempt_pairs header_profiles) none
      = Except.error (some ("session", e6)) := by
    show primary_attempts_loop attempt
      [("minimal", 10), ("minimal", 20), ("navigate", 10), ("navigate", 20),
        ("session", 10), ("session", 20)] none
      = Except.error (some ("session", e6))
    simp only [primary_attempts_loop, h1, h2, h3, h4, h5, h6]
  have hfetch : fetch_krx_futures_by_date attempt curl
      = (Except.error (mk_request_err "session" e6 ++ " | curl_fallback_error="
          ++ cerr.take 200), 1) := by
    unfold fetch_krx_futures_by_date
    rw [hloop, hcurl]
  refine ⟨by rw [hfetch], by rw [hfetch], ?_, ?_⟩
  · exact ⟨" | curl_fallback_error=" ++ cerr.take 200, String.append_assoc _ _ _⟩
  · exact ⟨mk_request_err "session" e6 ++ " | curl_fallback_error=", rfl⟩

/-- Witness for C8: an attempt oracle that always fails with a transport
error and a failing fallback produce one fallback call and the concatenated
message. -/
theorem c8_witness :
    (fetch_krx_futures_by_date (fun _ _ => Except.error (PrimErr.transport "primary boom"))
        (Except.error "curl boom")).2 = 1
    ∧ (fetch_krx_futures_by_date (fun _ _ => Except.error (PrimErr.transport "primary boom"))
        (Except.error "curl boom")).1
        = Except.error (mk_request_err "session" (PrimErr.transport "primary boom")
            ++ " | curl_fallback_error=" ++ ("curl boom").take 200)
    ∧ (∃ t, mk_request_err "session" (PrimErr.transport "primary boom")
          ++ " | curl_fallback_error=" ++ ("curl boom").take 200
        = mk_request_err "session" (PrimErr.transport "primary boom") ++ t)
    ∧ (∃ s, mk_request_err "session" (PrimErr.transport "primary boom")
          ++ " | curl_fallback_error=" ++ ("curl boom").take 200
        = s ++ ("curl boom").take 200) :=
  c8_fallback_once_and_combined_error
    (fun _ _ => Except.error (PrimErr.transport "primary boom"))
    (Except.error "curl boom") "curl boom" (PrimErr.transport "primary boom")
    (fun _ _ => ⟨PrimErr.transport "primary boom", rfl⟩) rfl rfl

/-- C9: a fetch or resolution failure for one basis-date candidate does not
abort the multi-date search — if every candidate before `c` fails or resolves
nothing and `c`'s fetch succeeds with a resolving row set, the search returns
that first resolved row with no error; and only when every candidate fails or
resolves nothing does the search surface a user-visible message, which, when
the last fetch error among the candidates is `e` (no later candidate errors),
is exactly the failure message carrying `e`. -/
theorem c9_multi_date_search (current_yyyymm : ℕ)
    (fetch : String → Except String (List Row)) :
    (∀ (pre : List String) (c : String) (post : List String)
        (rows : List Row) (r : Row),
        (∀ c' ∈ pre, no_resolve current_yyyymm fetch c') →
        fetch c = Except.ok rows →
        select_latest_kospi_night_contract current_yyyymm rows = some r →
        get_latest_kospi_night_futures_cached current_yyyymm fetch (pre ++ c :: post)
          = (some r, none))
    ∧ (∀ cands : List String,
        (∀ c ∈ cands, no_resolve current_yyyymm fetch c) →
        (get_latest_kospi_night_futures_cached current_yyyymm fetch cands).1 = none
        ∧ (∃ msg, (get_latest_kospi_night_futures_cached current_yyyymm fetch cands).2
            = some msg)
        ∧ (∀ (l1 : List String) (c : String) (l2 : List String) (e : String),
            cands = l1 ++ c :: l2 →
            fetch c = Except.error e →
            (∀ c' ∈ l2, ∃ rows, fetch c' = Except.ok rows ∧
              select_latest_kospi_night_contract current_yyyymm rows = none) →
            (get_latest_kospi_night_futures_cached current_yyyymm fetch cands).2
              = some ("KRX API 호출 실패: " ++ e))) := by
  constructor
  · intro pre c post rows r hpre hok hsel
    unfold get_latest_kospi_night_futures_cached
    obtain ⟨acc2, hskip⟩ := cached_loop_skip_all pre (c :: post) none hpre
    rw [hskip]
    exact cached_loop_first_hit hok hsel
  · intro cands hall
    have hgen : ∀ (l : List String) (acc : Option String),
        (∀ c ∈ l, no_resolve current_yyyymm fetch c) →
        (cached_loop current_yyyymm fetch l acc).1 = none
        ∧ ∃ msg, (cached_loop current_yyyymm fetch l acc).2 = some msg := by
      intro l
      induction l with
      | nil =>
        intro acc _
        cases acc with
        | none => exact ⟨rfl, _, rfl⟩
        | some e => exact ⟨rfl, _, rfl⟩
      | cons c cs ih =>
        intro acc hall2
        obtain ⟨acc2, hskip⟩ :=
          cached_loop_skip c cs acc (hall2 c (List.mem_cons_self _ _))
        rw [hskip]
        exact ih acc2 (fun c' hc' => hall2 c' (List.mem_cons_of_mem _ hc'))
    obtain ⟨hA, hB⟩ := hgen cands none hall
    refine ⟨hA, hB, ?_⟩
    intro l1 c l2 e hsplit herr hl2
    subst hsplit
    unfold get_latest_kospi_night_futures_cached
    have hl1 : ∀ c' ∈ l1, no_resolve current_yyyymm fetch c' :=
      fun c' hc' => hall c' (List.mem_append_left _ hc')
    obtain ⟨acc2, hskip⟩ := cached_loop_skip_all l1 (c :: l2) none hl1
    rw [hskip]
    rw [show cached_loop current_yyyymm fetch (c :: l2) acc2
        = cached_loop current_yyyymm fetch l2 (some e) from by simp [cached_loop, herr]]
    rw [cached_loop_keep l2 (some e) hl2]
    rfl

/-- Witness for C9: the first candidate's fetch fails, the second resolves;
the search returns the second candidate's row with no error. -/
theorem c9_witness :
    get_latest_kospi_night_futures_cached 202601
      (fun c => if c = "20260102" then Except.error "network down"
        else Except.ok [⟨"코스피200 선물", "야간", "코스피200 F 202601 (야간)", "20251230"⟩])
      (["20260102"] ++ "20260101" :: [])
      = (some ⟨"코스피200 선물", "야간", "코스피200 F 202601 (야간)", "20251230"⟩, none) :=
  (c9_multi_date_search 202601
      (fun c => if c = "20260102" then Except.error "network down"
        else Except.ok [⟨"코스피200 선물", "야간", "코스피200 F 202601 (야간)", "20251230"⟩])).1
    ["20260102"] "20260101" []
    [⟨"코스피200 선물", "야간", "코스피200 F 202601 (야간)", "20251230"⟩]
    ⟨"코스피200 선물", "야간", "코스피200 F 202601 (야간)", "20251230"⟩
    (fun c' hc' => by
      rw [List.mem_singleton] at hc'
      subst hc'
      exact Or.inl ⟨"network down", rfl⟩)
    rfl
    rfl
